import Mathlib

/-!
Shallow embedding of the correlation/statistics engine of the stock
aggregation frontend.  Floating-point numbers are modelled as exact real
numbers, JS `Map` and `Record` values as association lists that keep
insertion order, and the two `Record<string, Record<string, number>>`
correlation matrices as total functions `String → String → ℝ` together
with a pointwise update operation (every cell the source initialises or
assigns is reflected by an update; unpopulated cells read as `0`).
-/

noncomputable section

/-- A timestamped price sample (interface `StockPrice` in
`src/types/stock.ts`).  The ISO-8601 `timestamp` string is modelled as the
instant it denotes, in milliseconds since the epoch. -/
structure StockPrice where
  ticker : String
  price : ℝ
  timestamp : ℕ

/-- `calculateAverage` from the stock utilities module: `0` on an empty
list, otherwise the `reduce`-accumulated sum divided by the length. -/
def calculateAverage (prices : List ℝ) : ℝ :=
  if prices.length = 0 then 0 else prices.sum / prices.length

/-- `calculateStandardDeviation` from the stock utilities module: `0` on an
empty list, otherwise the square root of the average of the squared
deviations (`Math.pow(price - avg, 2)`) from the average. -/
def calculateStandardDeviation (prices : List ℝ) : ℝ :=
  if prices.length = 0 then 0
  else
    Real.sqrt (calculateAverage
      (prices.map fun price => (price - calculateAverage prices) ^ 2))

/-- The single-pass accumulation loop of `calculateCorrelation` (and of the
inline correlation computation in `CorrelationHeatmap`): the sum over
`i = 0 .. n-1` of `(p[i] - mean p) * (q[i] - mean q)`.  The three
accumulators of the source loop are the three instances `covSum p q n`
(`covariance`), `covSum p p n` (`variance1`) and `covSum q q n`
(`variance2`). -/
def covSum (p q : List ℝ) (n : ℕ) : ℝ :=
  ∑ i ∈ Finset.range n,
    (p.getD i 0 - calculateAverage p) * (q.getD i 0 - calculateAverage q)

/-- `calculateCorrelation` from the stock utilities module: `0` when the
lengths differ or are zero, `0` when either accumulated variance is zero,
otherwise `covariance / (Math.sqrt(variance1) * Math.sqrt(variance2))`;
`n` is `prices1.length` as in the source. -/
def calculateCorrelation (prices1 prices2 : List ℝ) : ℝ :=
  if prices1.length ≠ prices2.length ∨ prices1.length = 0 then 0
  else if covSum prices1 prices1 prices1.length = 0 ∨
      covSum prices2 prices2 prices1.length = 0 then 0
  else
    covSum prices1 prices2 prices1.length /
      (Real.sqrt (covSum prices1 prices1 prices1.length) *
        Real.sqrt (covSum prices2 prices2 prices1.length))

/-- Truncation of an instant to whole-minute resolution: the JS code zeroes
the seconds and milliseconds fields through the `Date` constructor, which on
the epoch-millisecond model is rounding down to a multiple of `60000`. -/
def minuteBucket (t : ℕ) : ℕ := 60000 * (t / 60000)

/-- JS `Map.prototype.set` on the association-list model: replace the value
of an existing key in place (keeping its position), otherwise append the
new entry at the end, as insertion-ordered JS maps do. -/
def mapSet (m : List (ℕ × ℝ)) (k : ℕ) (v : ℝ) : List (ℕ × ℝ) :=
  match m with
  | [] => [(k, v)]
  | e :: rest => if e.1 = k then (k, v) :: rest else e :: mapSet rest k v

/-- JS `Map.prototype.get` on the association-list model (`none` encodes
`undefined`, i.e. `Map.prototype.has` returning `false`). -/
def mapGet (m : List (ℕ × ℝ)) (k : ℕ) : Option ℝ :=
  match m with
  | [] => none
  | e :: rest => if e.1 = k then some e.2 else mapGet rest k

/-- The bucket-to-price map one series is folded into by
`alignPricesByTimestamp` (`timeMap1` / `timeMap2`): each sample is `set`
under its minute bucket, a later sample for the same bucket overwriting the
earlier price. -/
def buildTimeMap (prices : List StockPrice) : List (ℕ × ℝ) :=
  prices.foldl (fun m item => mapSet m (minuteBucket item.timestamp) item.price) []

/-- `alignPricesByTimestamp` from the stock utilities module: build the two
bucket maps, then walk the keys of the first map in iteration order and
emit a `(price1, price2)` pair for every key the second map also holds
(iterating the entries of `timeMap1` yields exactly the stored value that
`timeMap1.get` returns for that key). -/
def alignPricesByTimestamp (prices1 prices2 : List StockPrice) :
    List (ℝ × ℝ) :=
  let timeMap2 := buildTimeMap prices2
  (buildTimeMap prices1).filterMap fun e =>
    match mapGet timeMap2 e.1 with
    | some p2 => some (e.2, p2)
    | none => none

/-- Assignment `matrix[a][b] = v` on the total-function matrix model. -/
def matrixSet (m : String → String → ℝ) (a b : String) (v : ℝ) :
    String → String → ℝ :=
  fun x y => if x = a ∧ y = b then v else m x y

/-- Record indexing `stockData[t]` for the per-symbol series mapping (in the
source loops `t` is always one of the record keys). -/
def recordGet (d : List (String × List StockPrice)) (t : String) :
    List StockPrice :=
  match d with
  | [] => []
  | e :: rest => if e.1 = t then e.2 else recordGet rest t

/-- One execution of the inner loop body of the correlation pass of
`processStockData`: the self cell is assigned the fixed constant `1`; for
`ticker1 < ticker2` the two series are aligned by timestamp, correlated,
and the value is written into both symmetric cells; otherwise nothing is
assigned. -/
def psdStep (d : List (String × List StockPrice))
    (m : String → String → ℝ) (ticker1 ticker2 : String) :
    String → String → ℝ :=
  if ticker1 = ticker2 then matrixSet m ticker1 ticker2 1
  else if ticker1 < ticker2 then
    let aligned := alignPricesByTimestamp (recordGet d ticker1) (recordGet d ticker2)
    let correlation :=
      calculateCorrelation (aligned.map Prod.fst) (aligned.map Prod.snd)
    matrixSet (matrixSet m ticker1 ticker2 correlation) ticker2 ticker1 correlation
  else m

/-- `processStockData` from the stock utilities module: the initialisation
double loop writes `0` into every cell over the record keys (the
all-zero total function), then the correlation double loop runs `psdStep`
for every ordered pair of tickers in key order. -/
def processStockData (d : List (String × List StockPrice)) :
    String → String → ℝ :=
  let tickers := d.map Prod.fst
  tickers.foldl
    (fun m ticker1 => tickers.foldl (fun m ticker2 => psdStep d m ticker1 ticker2) m)
    (fun _ _ => 0)

/-- One execution of the inner loop body of the `correlationMatrix` memo in
`CorrelationHeatmap`: for index pairs `i ≤ j` the two price lists are cut
to their common minimum length, correlated inline (zero-length pairs give
`0`, a positive-variance pair gives the Pearson quotient), the result is
clamped by `Math.max(-1, Math.min(1, r))`, and written into both symmetric
cells; index pairs with `i > j` assign nothing. -/
def hmStep (d : List (String × List StockPrice))
    (m : String → String → ℝ) (p q : ℕ × String) : String → String → ℝ :=
  if p.1 ≤ q.1 then
    let prices1 := (recordGet d p.2).map StockPrice.price
    let prices2 := (recordGet d q.2).map StockPrice.price
    let minLength := min prices1.length prices2.length
    let aligned1 := prices1.take minLength
    let aligned2 := prices2.take minLength
    if aligned1.length = 0 then matrixSet (matrixSet m p.2 q.2 0) q.2 p.2 0
    else
      let correlation0 :=
        if 0 < covSum aligned1 aligned1 aligned1.length ∧
            0 < covSum aligned2 aligned2 aligned1.length then
          covSum aligned1 aligned2 aligned1.length /
            (Real.sqrt (covSum aligned1 aligned1 aligned1.length) *
              Real.sqrt (covSum aligned2 aligned2 aligned1.length))
        else 0
      let correlation := max (-1) (min 1 correlation0)
      matrixSet (matrixSet m p.2 q.2 correlation) q.2 p.2 correlation
  else m

/-- The `correlationMatrix` built inline by the `CorrelationHeatmap`
component: cells initialised to `0`, then `hmStep` for every pair of
enumerated tickers (JS `forEach` exposes the element index, modelled by
`List.enum`). -/
def correlationHeatmapMatrix (d : List (String × List StockPrice)) :
    String → String → ℝ :=
  let tickers := (d.map Prod.fst).enum
  tickers.foldl
    (fun m p => tickers.foldl (fun m q => hmStep d m p q) m)
    (fun _ _ => 0)

/-- The `priceChanges` loop of `StockPage`: pushes
`prices[i] - prices[i - 1]` for `i = 1 .. prices.length - 1`. -/
def firstDifferences (prices : List ℝ) : List ℝ :=
  List.zipWith (fun cur prev => cur - prev) prices.tail prices

/-- The lag-1 autocorrelation computed inline by `StockPage`: when more
than one first difference exists, correlate `priceChanges.slice(0, -1)`
with `priceChanges.slice(1)`, else leave the initial `0`. -/
def lagOneAutocorrelation (prices : List ℝ) : ℝ :=
  if 1 < (firstDifferences prices).length then
    calculateCorrelation (firstDifferences prices).dropLast
      (firstDifferences prices).tail
  else 0

/-- Claim C7: descriptive statistics on an empty sequence are the neutral
value: both the mean and the standard deviation of the empty list are `0`
(an actual number, not an error value). -/
theorem empty_stats_are_zero :
    calculateAverage ([] : List ℝ) = 0 ∧
      calculateStandardDeviation ([] : List ℝ) = 0 := by
  constructor <;> rfl

theorem avg_sample_list : calculateAverage [100, 102, 98, 104] = 101 := by
  norm_num [calculateAverage]

theorem stddev_sample_list :
    calculateStandardDeviation [100, 102, 98, 104] = Real.sqrt 5 := by
  rw [calculateStandardDeviation, if_neg (by norm_num)]
  norm_num [calculateAverage]

/-- Claim C8: the standard deviation is the population standard deviation,
the square root of the mean of the squared deviations from the mean; on the
sample list the mean is `101` and the standard deviation is about `2.236`
(it lies strictly between `2.236` and `2.237`), and a singleton list has
standard deviation `0`. -/
theorem stddev_is_population_stddev :
    (∀ l : List ℝ, l ≠ [] →
      calculateStandardDeviation l =
        Real.sqrt (calculateAverage (l.map fun p => (p - calculateAverage l) ^ 2))) ∧
    calculateAverage [100, 102, 98, 104] = 101 ∧
    (2.236 < calculateStandardDeviation [100, 102, 98, 104] ∧
      calculateStandardDeviation [100, 102, 98, 104] < 2.237) ∧
    (∀ x : ℝ, calculateStandardDeviation [x] = 0) := by
  refine ⟨fun l hl => ?_, avg_sample_list, ⟨?_, ?_⟩, fun x => ?_⟩
  · rw [calculateStandardDeviation,
      if_neg (fun hc => hl (List.eq_nil_of_length_eq_zero hc))]
  · rw [stddev_sample_list, show (2.236 : ℝ) = 2.236 from rfl]
    rw [Real.lt_sqrt (by norm_num)]
    norm_num
  · rw [stddev_sample_list, Real.sqrt_lt' (by norm_num)]
    norm_num
  · norm_num [calculateStandardDeviation, calculateAverage]

theorem stddev_is_population_stddev_witness :
    ([(3 : ℝ), 7] ≠ ([] : List ℝ) ∧
      calculateStandardDeviation [(3 : ℝ), 7] =
        Real.sqrt (calculateAverage
          ([(3 : ℝ), 7].map fun p => (p - calculateAverage [(3 : ℝ), 7]) ^ 2))) :=
  ⟨by simp, stddev_is_population_stddev.1 [(3 : ℝ), 7] (by simp)⟩

theorem covSum_self_nonneg (p : List ℝ) (n : ℕ) : 0 ≤ covSum p p n :=
  Finset.sum_nonneg fun _ _ => mul_self_nonneg _

theorem covSum_self_eq_sum_sq (p : List ℝ) (n : ℕ) :
    covSum p p n = ∑ i ∈ Finset.range n, (p.getD i 0 - calculateAverage p) ^ 2 :=
  Finset.sum_congr rfl fun _ _ => (pow_two _).symm

theorem abs_covSum_le (p q : List ℝ) (n : ℕ) :
    |covSum p q n| ≤ Real.sqrt (covSum p p n) * Real.sqrt (covSum q q n) := by
  have key := Real.sum_mul_le_sqrt_mul_sqrt (Finset.range n)
    (fun i => p.getD i 0 - calculateAverage p)
    (fun i => q.getD i 0 - calculateAverage q)
  have keyneg := Real.sum_mul_le_sqrt_mul_sqrt (Finset.range n)
    (fun i => -(p.getD i 0 - calculateAverage p))
    (fun i => q.getD i 0 - calculateAverage q)
  simp only [neg_mul, Finset.sum_neg_distrib, neg_sq] at keyneg
  rw [abs_le]
  constructor
  · rw [neg_le]
    calc -covSum p q n ≤
        Real.sqrt (∑ i ∈ Finset.range n, (p.getD i 0 - calculateAverage p) ^ 2) *
          Real.sqrt (∑ i ∈ Finset.range n, (q.getD i 0 - calculateAverage q) ^ 2) := by
          rw [covSum]; exact keyneg
      _ = Real.sqrt (covSum p p n) * Real.sqrt (covSum q q n) := by
          rw [covSum_self_eq_sum_sq, covSum_self_eq_sum_sq]
  · calc covSum p q n ≤
        Real.sqrt (∑ i ∈ Finset.range n, (p.getD i 0 - calculateAverage p) ^ 2) *
          Real.sqrt (∑ i ∈ Finset.range n, (q.getD i 0 - calculateAverage q) ^ 2) := by
          rw [covSum]; exact key
      _ = Real.sqrt (covSum p p n) * Real.sqrt (covSum q q n) := by
          rw [covSum_self_eq_sum_sq, covSum_self_eq_sum_sq]

/-- Claim C1: the correlation function always returns a value in the closed
interval `[-1, 1]`; on the exact-real model nothing beyond the mathematical
Cauchy-Schwarz bound is needed, so this holds for all inputs, with the
equal-length case of the claim as a special case. -/
theorem correlation_in_unit_interval (prices1 prices2 : List ℝ) :
    -1 ≤ calculateCorrelation prices1 prices2 ∧
      calculateCorrelation prices1 prices2 ≤ 1 := by
  rw [calculateCorrelation]
  split
  · norm_num
  split
  · norm_num
  next hvar =>
    push_neg at hvar
    obtain ⟨h1, h2⟩ := hvar
    have hp1 : 0 < covSum prices1 prices1 prices1.length :=
      (covSum_self_nonneg _ _).lt_of_ne (Ne.symm h1)
    have hp2 : 0 < covSum prices2 prices2 prices1.length :=
      (covSum_self_nonneg _ _).lt_of_ne (Ne.symm h2)
    have hD : 0 < Real.sqrt (covSum prices1 prices1 prices1.length) *
        Real.sqrt (covSum prices2 prices2 prices1.length) :=
      mul_pos (Real.sqrt_pos.2 hp1) (Real.sqrt_pos.2 hp2)
    have habs := abs_covSum_le prices1 prices2 prices1.length
    rw [abs_le] at habs
    constructor
    · rw [le_div_iff₀ hD]
      linarith [habs.1]
    · rw [div_le_one hD]
      exact habs.2

theorem covSum_comm (p q : List ℝ) (n : ℕ) : covSum p q n = covSum q p n :=
  Finset.sum_congr rfl fun _ _ => mul_comm _ _

/-- Claim C9: the correlation function is symmetric in its two arguments;
this holds for all argument lists, with the equal-nonzero-length
non-constant case of the claim as a special case. -/
theorem correlation_symm (x y : List ℝ) :
    calculateCorrelation x y = calculateCorrelation y x := by
  rw [calculateCorrelation, calculateCorrelation]
  by_cases hlen : x.length = y.length
  · rw [hlen]
    by_cases h0 : y.length = 0
    · simp [h0]
    · have hguard : ¬(y.length ≠ y.length ∨ y.length = 0) := by
        push_neg
        exact ⟨rfl, h0⟩
      rw [if_neg hguard, if_neg hguard, covSum_comm x y]
      by_cases hv : covSum x x y.length = 0 ∨ covSum y y y.length = 0
      · rw [if_pos hv, if_pos (Or.symm hv)]
      · rw [if_neg hv, if_neg (fun hc => hv (Or.symm hc)), mul_comm]
  · rw [if_pos (Or.inl hlen), if_pos (Or.inl (Ne.symm hlen))]

theorem calculateAverage_replicate (n : ℕ) (c : ℝ) (h : n ≠ 0) :
    calculateAverage (List.replicate n c) = c := by
  rw [calculateAverage, if_neg (by simpa using h), List.sum_replicate,
    List.length_replicate, nsmul_eq_mul,
    mul_div_cancel_left₀ c (by exact_mod_cast h)]

theorem covSum_replicate_left (n m : ℕ) (c : ℝ) (q : List ℝ)
    (h : n ≠ 0) (hm : m ≤ n) : covSum (List.replicate n c) q m = 0 := by
  rw [covSum]
  apply Finset.sum_eq_zero
  intro i hi
  have hc : (List.replicate n c).getD i 0 = c := by
    have hin : i < n := lt_of_lt_of_le (Finset.mem_range.1 hi) hm
    simp [List.getD_eq_getElem?_getD, List.getElem?_replicate, hin]
  rw [hc, calculateAverage_replicate n c h, sub_self, zero_mul]

/-- Claim C4: the correlation function resolves every malformed or
degenerate statistical input to the neutral value `0`: mismatched lengths,
an empty first sequence (which covers the both-empty case), and a
zero-variance constant sequence on either side (the `variance1` and
`variance2` guards) all return `0`; the function is total, so no input
raises. -/
theorem correlation_degenerate_is_zero (p1 p2 : List ℝ) (c : ℝ) (n : ℕ) :
    (p1.length ≠ p2.length → calculateCorrelation p1 p2 = 0) ∧
    (p1.length = 0 → calculateCorrelation p1 p2 = 0) ∧
    calculateCorrelation (List.replicate n c) p2 = 0 ∧
    calculateCorrelation p1 (List.replicate n c) = 0 := by
  refine ⟨fun h => ?_, fun h => ?_, ?_, ?_⟩
  · rw [calculateCorrelation, if_pos (Or.inl h)]
  · rw [calculateCorrelation, if_pos (Or.inr h)]
  · rw [calculateCorrelation]
    by_cases hl : (List.replicate n c).length ≠ p2.length ∨
        (List.replicate n c).length = 0
    · rw [if_pos hl]
    · rw [if_neg hl]
      push_neg at hl
      have hn : n ≠ 0 := by
        intro hc
        exact hl.2 (by simp [hc])
      rw [if_pos (Or.inl (covSum_replicate_left n _ c _ hn
        (le_of_eq (List.length_replicate n c))))]
  · rw [calculateCorrelation]
    by_cases hl : p1.length ≠ (List.replicate n c).length ∨ p1.length = 0
    · rw [if_pos hl]
    · rw [if_neg hl]
      push_neg at hl
      have hlen : p1.length = n := by
        rw [hl.1, List.length_replicate]
      have hn : n ≠ 0 := fun hc => hl.2 (by rw [hlen, hc])
      rw [if_pos (Or.inr (covSum_replicate_left n p1.length c _ hn
        (le_of_eq hlen)))]

theorem correlation_degenerate_is_zero_witness :
    (([(1 : ℝ)].length ≠ ([] : List ℝ).length ∧
        calculateCorrelation [(1 : ℝ)] [] = 0) ∧
      (([] : List ℝ).length = 0 ∧
        calculateCorrelation ([] : List ℝ) [] = 0) ∧
      calculateCorrelation (List.replicate 2 (5 : ℝ)) [(1 : ℝ), 2] = 0 ∧
      calculateCorrelation [(1 : ℝ), 2] (List.replicate 2 (5 : ℝ)) = 0) :=
  ⟨⟨by simp, (correlation_degenerate_is_zero [1] [] 0 0).1 (by simp)⟩,
    ⟨rfl, (correlation_degenerate_is_zero [] [] 0 0).2.1 rfl⟩,
    (correlation_degenerate_is_zero [] [(1 : ℝ), 2] 5 2).2.2.1,
    (correlation_degenerate_is_zero [(1 : ℝ), 2] [] 5 2).2.2.2⟩

/-- Claim C6: the lag-1 autocorrelation forms the first differences (one
fewer than the number of prices), returns `0` when there is at most one
difference, and otherwise correlates the differences without their last
element against the differences without their first element; on the
constant list `[10, 10, 10]` the differences are `[0, 0]` and the
zero-variance guard of the correlation function yields `0`. -/
theorem lag_one_autocorrelation_spec :
    (∀ prices : List ℝ, (firstDifferences prices).length = prices.length - 1) ∧
    (∀ prices : List ℝ, (firstDifferences prices).length ≤ 1 →
      lagOneAutocorrelation prices = 0) ∧
    (∀ prices : List ℝ, 1 < (firstDifferences prices).length →
      lagOneAutocorrelation prices =
        calculateCorrelation (firstDifferences prices).dropLast
          (firstDifferences prices).tail) ∧
    lagOneAutocorrelation [10, 10, 10] = 0 := by
  refine ⟨fun prices => ?_, fun prices h => ?_, fun prices h => ?_, ?_⟩
  · rw [firstDifferences, List.length_zipWith, List.length_tail]
    exact min_eq_left (Nat.sub_le _ _)
  · rw [lagOneAutocorrelation, if_neg (not_lt.2 h)]
  · rw [lagOneAutocorrelation, if_pos h]
  · have hfd : firstDifferences [(10 : ℝ), 10, 10] = [0, 0] := by
      norm_num [firstDifferences]
    rw [lagOneAutocorrelation, hfd]
    norm_num [calculateCorrelation, covSum, calculateAverage]

theorem foldl_preserve {α β : Type _} (P : α → Prop) (step : α → β → α)
    (hstep : ∀ m b, P m → P (step m b)) :
    ∀ (l : List β) (m : α), P m → P (l.foldl step m) := by
  intro l
  induction l with
  | nil => exact fun _ hm => hm
  | cons b rest ih => exact fun m hm => ih _ (hstep _ _ hm)

theorem matrixSet_diag_symm (m : String → String → ℝ) (t : String) (v : ℝ)
    (hm : ∀ x y, m x y = m y x) (x y : String) :
    matrixSet m t t v x y = matrixSet m t t v y x := by
  simp only [matrixSet]
  split_ifs <;> first | rfl | tauto

theorem matrixSet_pair_symm (m : String → String → ℝ) (a b : String) (v : ℝ)
    (hm : ∀ x y, m x y = m y x) (x y : String) :
    matrixSet (matrixSet m a b v) b a v x y =
      matrixSet (matrixSet m a b v) b a v y x := by
  simp only [matrixSet]
  split_ifs <;> first | rfl | tauto

theorem psdStep_symm (d : List (String × List StockPrice))
    (m : String → String → ℝ) (t1 t2 : String)
    (hm : ∀ x y, m x y = m y x) (x y : String) :
    psdStep d m t1 t2 x y = psdStep d m t1 t2 y x := by
  simp only [psdStep]
  split_ifs with h1 h2
  · subst h1
    exact matrixSet_diag_symm m t1 1 hm x y
  · exact matrixSet_pair_symm m t1 t2 _ hm x y
  · exact hm x y

theorem hmStep_symm (d : List (String × List StockPrice))
    (m : String → String → ℝ) (p q : ℕ × String)
    (hm : ∀ x y, m x y = m y x) (x y : String) :
    hmStep d m p q x y = hmStep d m p q y x := by
  simp only [hmStep]
  split_ifs <;>
    first
      | exact hm x y
      | exact matrixSet_pair_symm m p.2 q.2 _ hm x y

theorem processStockData_symm (d : List (String × List StockPrice))
    (x y : String) : processStockData d x y = processStockData d y x := by
  simp only [processStockData]
  refine foldl_preserve (fun mm : String → String → ℝ => ∀ a b, mm a b = mm b a)
    _ ?_ _ _ ?_ x y
  · exact fun mm t1 hmm =>
      foldl_preserve (fun m2 : String → String → ℝ => ∀ a b, m2 a b = m2 b a) _
        (fun m2 t2 h2 => psdStep_symm d m2 t1 t2 h2) _ _ hmm
  · exact fun _ _ => rfl

theorem correlationHeatmapMatrix_symm (d : List (String × List StockPrice))
    (x y : String) :
    correlationHeatmapMatrix d x y = correlationHeatmapMatrix d y x := by
  simp only [correlationHeatmapMatrix]
  refine foldl_preserve (fun mm : String → String → ℝ => ∀ a b, mm a b = mm b a)
    _ ?_ _ _ ?_ x y
  · exact fun mm p hmm =>
      foldl_preserve (fun m2 : String → String → ℝ => ∀ a b, m2 a b = m2 b a) _
        (fun m2 q h2 => hmStep_symm d m2 p q h2) _ _ hmm
  · exact fun _ _ => rfl

/-- Claim C3: both correlation matrices of the repository are exactly
symmetric: for every input record and every pair of symbols, the matrix
built by processStockData and the matrix built inline by the heatmap
component satisfy matrix a b = matrix b a (each assignment writes the same
value into both mirror cells, and untouched cells carry the symmetric
initial value). -/
theorem correlation_matrices_symmetric (d : List (String × List StockPrice))
    (a b : String) :
    processStockData d a b = processStockData d b a ∧
      correlationHeatmapMatrix d a b = correlationHeatmapMatrix d b a :=
  ⟨processStockData_symm d a b, correlationHeatmapMatrix_symm d a b⟩

theorem psdStep_preserves_diag (d : List (String × List StockPrice))
    (m : String → String → ℝ) (t1 t2 a : String) (hm : m a a = 1) :
    psdStep d m t1 t2 a a = 1 := by
  simp only [psdStep]
  split_ifs with h1 h2
  · simp only [matrixSet]
    split_ifs with g1
    · rfl
    · exact hm
  · simp only [matrixSet]
    split_ifs with g2 g3
    · exact absurd (g2.2.symm.trans g2.1) (ne_of_lt h2)
    · exact absurd (g3.1.symm.trans g3.2) (ne_of_lt h2)
    · exact hm
  · exact hm

theorem inner_fold_diag (d : List (String × List StockPrice)) (a : String) :
    ∀ (l : List String) (m : String → String → ℝ), a ∈ l →
      (l.foldl (fun m t2 => psdStep d m a t2) m) a a = 1 := by
  intro l
  induction l with
  | nil => exact fun m hm => absurd hm (List.not_mem_nil a)
  | cons t rest ih =>
    intro m hmem
    rw [List.foldl_cons]
    rcases List.mem_cons.1 hmem with rfl | hr
    · have h1 : (psdStep d m a a) a a = 1 := by
        simp only [psdStep, if_pos rfl]
        simp [matrixSet]
      exact foldl_preserve (fun mm => mm a a = 1) _
        (fun mm t2 h => psdStep_preserves_diag d mm a t2 a h) rest _ h1
    · exact ih _ hr

theorem outer_fold_diag (d : List (String × List StockPrice)) (a : String)
    (tickers : List String) (ha : a ∈ tickers) :
    ∀ (l : List String) (m : String → String → ℝ), a ∈ l →
      (l.foldl
        (fun m t1 => tickers.foldl (fun m t2 => psdStep d m t1 t2) m) m) a a = 1 := by
  intro l
  induction l with
  | nil => exact fun m hm => absurd hm (List.not_mem_nil a)
  | cons t rest ih =>
    intro m hmem
    rw [List.foldl_cons]
    rcases List.mem_cons.1 hmem with rfl | hr
    · have h1 : (tickers.foldl (fun m t2 => psdStep d m a t2) m) a a = 1 :=
        inner_fold_diag d a tickers m ha
      exact foldl_preserve (fun mm => mm a a = 1) _
        (fun mm t1 h => foldl_preserve (fun m2 => m2 a a = 1) _
          (fun m2 t2 h2 => psdStep_preserves_diag d m2 t1 t2 a h2) tickers mm h)
        rest _ h1
    · exact ih _ hr

/-- Claim C2 (amended): the matrix built by processStockData has
matrix a a = 1 for every symbol of the input record, as a fixed constant
assignment, including for symbols whose series is empty or constant; the
inline matrix of the heatmap component does not share this property. -/
theorem processStockData_diag_one (d : List (String × List StockPrice))
    (a : String) (ha : a ∈ d.map Prod.fst) : processStockData d a a = 1 := by
  simp only [processStockData]
  exact outer_fold_diag d a (d.map Prod.fst) ha (d.map Prod.fst) _ ha

theorem processStockData_diag_one_witness :
    ("A" ∈ [("A", ([] : List StockPrice))].map Prod.fst) ∧
      processStockData [("A", ([] : List StockPrice))] "A" "A" = 1 :=
  ⟨by simp, processStockData_diag_one _ _ (by simp)⟩

/-- Claim C2 (counterexample): the self-cell of the matrix built inline by
the heatmap component is a computed value, not the fixed constant 1: for
the input record mapping symbol A to an empty series, the cell at (A, A)
is 0, not 1, because the zero-length aligned pair branch writes 0. -/
theorem heatmap_self_cell_not_one :
    correlationHeatmapMatrix [("A", ([] : List StockPrice))] "A" "A" = 0 ∧
      correlationHeatmapMatrix [("A", ([] : List StockPrice))] "A" "A" ≠ 1 := by
  have h : correlationHeatmapMatrix [("A", ([] : List StockPrice))] "A" "A" = 0 := by
    simp [correlationHeatmapMatrix, hmStep, recordGet, matrixSet]
  refine ⟨h, ?_⟩
  rw [h]
  norm_num

theorem mapSet_keys (m : List (ℕ × ℝ)) (k : ℕ) (v : ℝ) :
    (mapSet m k v).map Prod.fst =
      if k ∈ m.map Prod.fst then m.map Prod.fst else m.map Prod.fst ++ [k] := by
  induction m with
  | nil => simp [mapSet]
  | cons e rest ih =>
    by_cases he : e.1 = k
    · simp [mapSet, he]
    · simp only [mapSet, if_neg he, List.map_cons]
      rw [ih]
      by_cases hk : k ∈ rest.map Prod.fst
      · rw [if_pos hk, if_pos (by simp [hk])]
      · rw [if_neg hk, if_neg (by simp [hk, Ne.symm he]), List.cons_append]

theorem mem_keys_mapSet (m : List (ℕ × ℝ)) (k : ℕ) (v : ℝ) (j : ℕ) :
    j ∈ (mapSet m k v).map Prod.fst ↔ j = k ∨ j ∈ m.map Prod.fst := by
  rw [mapSet_keys]
  by_cases hk : k ∈ m.map Prod.fst
  · rw [if_pos hk]
    constructor
    · exact Or.inr
    · rintro (rfl | h)
      exacts [hk, h]
  · rw [if_neg hk]
    simp [or_comm]

theorem mapGet_eq_none_iff (m : List (ℕ × ℝ)) (k : ℕ) :
    mapGet m k = none ↔ k ∉ m.map Prod.fst := by
  induction m with
  | nil => simp [mapGet]
  | cons e rest ih =>
    by_cases he : e.1 = k
    · simp [mapGet, he]
    · simp only [mapGet, if_neg he, List.map_cons, List.mem_cons, ih]
      constructor
      · rintro hmem (rfl | hr)
        exacts [he rfl, hmem hr]
      · intro hmem hr
        exact hmem (Or.inr hr)

theorem mapGet_isSome_iff (m : List (ℕ × ℝ)) (k : ℕ) :
    (mapGet m k).isSome ↔ k ∈ m.map Prod.fst := by
  rw [Option.isSome_iff_ne_none, Ne, mapGet_eq_none_iff, not_not]

theorem buildTimeMap_loop_keys_mem (p : List StockPrice) :
    ∀ (acc : List (ℕ × ℝ)) (j : ℕ),
      j ∈ ((p.foldl
        (fun m item => mapSet m (minuteBucket item.timestamp) item.price) acc).map
          Prod.fst) ↔
        j ∈ acc.map Prod.fst ∨ j ∈ p.map fun s => minuteBucket s.timestamp := by
  induction p with
  | nil => intro acc j; simp
  | cons s rest ih =>
    intro acc j
    rw [List.foldl_cons, ih, mem_keys_mapSet]
    simp only [List.map_cons, List.mem_cons]
    tauto

theorem buildTimeMap_keys_mem (p : List StockPrice) (j : ℕ) :
    j ∈ (buildTimeMap p).map Prod.fst ↔
      j ∈ p.map fun s => minuteBucket s.timestamp := by
  rw [buildTimeMap, buildTimeMap_loop_keys_mem]
  simp

theorem mapSet_keys_nodup (m : List (ℕ × ℝ)) (k : ℕ) (v : ℝ)
    (h : (m.map Prod.fst).Nodup) : ((mapSet m k v).map Prod.fst).Nodup := by
  rw [mapSet_keys]
  by_cases hk : k ∈ m.map Prod.fst
  · rwa [if_pos hk]
  · rw [if_neg hk, List.nodup_append]
    refine ⟨h, List.nodup_singleton _, ?_⟩
    intro a ha hb
    simp only [List.mem_singleton] at hb
    subst hb
    exact hk ha

theorem buildTimeMap_loop_keys_nodup (p : List StockPrice) :
    ∀ acc : List (ℕ × ℝ), (acc.map Prod.fst).Nodup →
      ((p.foldl
        (fun m item => mapSet m (minuteBucket item.timestamp) item.price) acc).map
          Prod.fst).Nodup := by
  induction p with
  | nil => intro acc h; exact h
  | cons s rest ih =>
    intro acc h
    exact ih _ (mapSet_keys_nodup _ _ _ h)

theorem buildTimeMap_keys_nodup (p : List StockPrice) :
    ((buildTimeMap p).map Prod.fst).Nodup :=
  buildTimeMap_loop_keys_nodup p [] (by simp)

theorem filterMap_pairs_length (m2 : List (ℕ × ℝ)) (m1 : List (ℕ × ℝ)) :
    (m1.filterMap fun e =>
      match mapGet m2 e.1 with
      | some p2 => some (e.2, p2)
      | none => none).length =
    (m1.map Prod.fst).countP fun k => (mapGet m2 k).isSome := by
  induction m1 with
  | nil => rfl
  | cons e rest ih =>
    rw [List.filterMap_cons]
    cases h : mapGet m2 e.1 with
    | none => simp [h, ih, List.countP_cons]
    | some v => simp [h, ih, List.countP_cons]

theorem align_length_eq_countP (p1 p2 : List StockPrice) :
    (alignPricesByTimestamp p1 p2).length =
      ((buildTimeMap p1).map Prod.fst).countP
        (fun k => (mapGet (buildTimeMap p2) k).isSome) := by
  simp only [alignPricesByTimestamp]
  exact filterMap_pairs_length _ _

theorem align_length_eq_card_inter (p1 p2 : List StockPrice) :
    (alignPricesByTimestamp p1 p2).length =
      ((p1.map fun s => minuteBucket s.timestamp).toFinset ∩
        (p2.map fun s => minuteBucket s.timestamp).toFinset).card := by
  rw [align_length_eq_countP]
  have hnd : ((buildTimeMap p1).map Prod.fst).Nodup := buildTimeMap_keys_nodup p1
  have hcong : ((buildTimeMap p1).map Prod.fst).countP
        (fun k => (mapGet (buildTimeMap p2) k).isSome) =
      ((buildTimeMap p1).map Prod.fst).countP
        (fun k => decide (k ∈ (buildTimeMap p2).map Prod.fst)) :=
    List.countP_congr fun x _ => by simp [mapGet_isSome_iff]
  rw [hcong, List.countP_eq_length_filter,
    ← List.toFinset_card_of_nodup (hnd.filter _)]
  congr 1
  ext j
  simp only [List.mem_toFinset, List.mem_filter, Finset.mem_inter,
    decide_eq_true_eq]
  rw [buildTimeMap_keys_mem, buildTimeMap_keys_mem]

/-- Claim C10: alignment is length-symmetric: aligning A with B and B with
A produce the same number of pairs, both equal to the number of minute
buckets present in both bucket maps (the buckets of a bucket map are
exactly the truncated timestamps of its series). -/
theorem align_length_symmetric (A B : List StockPrice) :
    (alignPricesByTimestamp A B).length = (alignPricesByTimestamp B A).length ∧
    (alignPricesByTimestamp A B).length =
      ((A.map fun s => minuteBucket s.timestamp).toFinset ∩
        (B.map fun s => minuteBucket s.timestamp).toFinset).card := by
  refine ⟨?_, align_length_eq_card_inter A B⟩
  rw [align_length_eq_card_inter A B, align_length_eq_card_inter B A,
    Finset.inter_comm]

/-- Claim C5: alignment is a minute-bucket join: an empty series on either
side gives no pairs, series with no common minute bucket give no pairs,
and for series at minute marks 0,1,2 and 1,2,3 exactly the two pairs for
minutes 1 and 2 are emitted, in the order of the first bucket map. -/
theorem align_is_minute_bucket_join :
    (∀ p2 : List StockPrice, alignPricesByTimestamp [] p2 = []) ∧
    (∀ p1 : List StockPrice, alignPricesByTimestamp p1 [] = []) ∧
    (∀ p1 p2 : List StockPrice,
      (∀ a ∈ p1, ∀ b ∈ p2, minuteBucket a.timestamp ≠ minuteBucket b.timestamp) →
      alignPricesByTimestamp p1 p2 = []) ∧
    (∀ x0 x1 x2 y1 y2 y3 : ℝ,
      alignPricesByTimestamp
        [⟨"A", x0, 0⟩, ⟨"A", x1, 60000⟩, ⟨"A", x2, 120000⟩]
        [⟨"B", y1, 60000⟩, ⟨"B", y2, 120000⟩, ⟨"B", y3, 180000⟩] =
        [(x1, y1), (x2, y2)]) := by
  refine ⟨fun p2 => rfl, fun p1 => ?_, fun p1 p2 h => ?_,
    fun x0 x1 x2 y1 y2 y3 => ?_⟩
  · simp only [alignPricesByTimestamp]
    refine List.filterMap_eq_nil_iff.2 fun e he => rfl
  · simp only [alignPricesByTimestamp]
    refine List.filterMap_eq_nil_iff.2 fun e he => ?_
    have hk1 : e.1 ∈ (buildTimeMap p1).map Prod.fst :=
      List.mem_map_of_mem Prod.fst he
    rw [buildTimeMap_keys_mem] at hk1
    obtain ⟨a, ha, hae⟩ := List.mem_map.1 hk1
    have hnone : mapGet (buildTimeMap p2) e.1 = none := by
      rw [mapGet_eq_none_iff]
      intro hmem
      rw [buildTimeMap_keys_mem] at hmem
      obtain ⟨b, hb, hbe⟩ := List.mem_map.1 hmem
      exact h a ha b hb (hae.trans hbe.symm)
    simp [hnone]
  · have hA : buildTimeMap [⟨"A", x0, 0⟩, ⟨"A", x1, 60000⟩, ⟨"A", x2, 120000⟩] =
        [(0, x0), (60000, x1), (120000, x2)] := by
      norm_num [buildTimeMap, mapSet, minuteBucket]
    have hB : buildTimeMap [⟨"B", y1, 60000⟩, ⟨"B", y2, 120000⟩, ⟨"B", y3, 180000⟩] =
        [(60000, y1), (120000, y2), (180000, y3)] := by
      norm_num [buildTimeMap, mapSet, minuteBucket]
    simp only [alignPricesByTimestamp, hA, hB]
    norm_num [mapGet, List.filterMap_cons]

theorem align_is_minute_bucket_join_witness :
    ((∀ a ∈ [({ ticker := "A", price := 5, timestamp := 0 } : StockPrice)],
        ∀ b ∈ [({ ticker := "B", price := 7, timestamp := 60000 } : StockPrice)],
        minuteBucket a.timestamp ≠ minuteBucket b.timestamp) ∧
      alignPricesByTimestamp
        [({ ticker := "A", price := 5, timestamp := 0 } : StockPrice)]
        [({ ticker := "B", price := 7, timestamp := 60000 } : StockPrice)] = []) :=
  ⟨by
      intro a ha b hb
      rw [List.mem_singleton] at ha hb
      subst ha
      subst hb
      norm_num [minuteBucket],
    align_is_minute_bucket_join.2.2.1 _ _ (by
      intro a ha b hb
      rw [List.mem_singleton] at ha hb
      subst ha
      subst hb
      norm_num [minuteBucket])⟩

theorem lag_one_autocorrelation_spec_witness :
    ((firstDifferences [(10 : ℝ), 20]).length ≤ 1 ∧
        lagOneAutocorrelation [(10 : ℝ), 20] = 0) ∧
      (1 < (firstDifferences [(1 : ℝ), 2, 4]).length ∧
        lagOneAutocorrelation [(1 : ℝ), 2, 4] =
          calculateCorrelation (firstDifferences [(1 : ℝ), 2, 4]).dropLast
            (firstDifferences [(1 : ℝ), 2, 4]).tail) :=
  ⟨⟨by norm_num [firstDifferences],
      lag_one_autocorrelation_spec.2.1 [(10 : ℝ), 20] (by norm_num [firstDifferences])⟩,
    ⟨by norm_num [firstDifferences],
      lag_one_autocorrelation_spec.2.2.1 [(1 : ℝ), 2, 4]
        (by norm_num [firstDifferences])⟩⟩

end
